import Mathlib

/-!
# Verification of the depth-frame decoding utilities

Shallow embedding of `src/utilities.py` from the `generate_test_data`
repository.  The repository reads binary files of float64 values, reshapes
each file into a sequence of `height × width` frames
(`load_depth_data_frames`), aggregates the per-file results into a Python
dict (`load_depth_data_sets`), and discovers the input files
(`load_input_file_paths`).

Modelling choices:
* A file's decoded float64 payload is a `List α` (the decoder never inspects
  the values, only rearranges them, so the element type is kept abstract;
  theorems instantiate it at `Int`).
* The file system is a partial map `String → Option (List α)`; `none` models
  `FileNotFoundError` on `open`.
* `np.fromfile(dtype=float64)` followed by `reshape(-1, height, width)` is
  modelled by chunking the value list into frames of `width*height` values
  and each frame into `height` rows of `width` values (numpy arrays are
  row-major).
* The Python dict is modelled as an insertion-ordered association list with
  Python's update-in-place semantics (`dictInsert`).
* `exit(1)` in `load_input_file_paths` is modelled with `Except Nat`
  (the error value is the process exit status).
-/

namespace GenerateTestData

/-- Split a list into `length / k` consecutive chunks of `k` elements:
chunk `i` is the slice `[i*k, i*k + k)`.  This is the index map underlying
numpy's row-major `reshape` (numpy only reshapes when `k` divides the
length, the case the decoder reaches after its divisibility check). -/
def chunkList (k : Nat) (xs : List α) : List (List α) :=
  (List.range (xs.length / k)).map (fun i => (xs.drop (i * k)).take k)

/-- Model of `np.reshape(-1, height, width)` on a flat row-major buffer: cut the buffer
into frames of `width*height` values, and each frame into `height` rows of
`width` values. -/
def reshape (height width : Nat) (data : List α) : List (List (List α)) :=
  (chunkList (width * height) data).map (chunkList width)

/-- The error raised by `load_depth_data_frames`: Python's
`ValueError(f"Incorrect frame size {width} x {height}")`, which names the
expected frame dimensions. -/
inductive DepthError where
  | frameSizeMismatch (width : Nat) (height : Nat)
deriving DecidableEq, Repr

/-- Embedding of `utilities.load_depth_data_frames`: open the file (a missing file yields
the empty frame sequence `np.array([])`), check that the number of float64
values is a multiple of `width * height` (else raise `ValueError`), and
reshape the buffer into `(-1, height, width)`. -/
def load_depth_data_frames (fs : String → Option (List α)) (file_name : String)
    (width height : Nat) : Except DepthError (List (List (List α))) :=
  match fs file_name with
  | none => Except.ok []
  | some data =>
    if data.length % (width * height) != 0 then
      Except.error (DepthError.frameSizeMismatch width height)
    else
      Except.ok (reshape height width data)

/-- Python `data_sets[file_name] = value`: update the value in place when the
key is present (keeping its position), otherwise append the new binding. -/
def dictInsert (d : List (String × β)) (k : String) (v : β) : List (String × β) :=
  if d.any (fun p => p.1 == k) then
    d.map (fun p => if p.1 == k then (k, v) else p)
  else
    d ++ [(k, v)]

/-- One iteration of the loop in `utilities.load_depth_data_sets`: decode the
file and store the frames under the file name; on `ValueError`, print and
`continue` (the dict is left unchanged). -/
def loadStep (fs : String → Option (List α)) (width height : Nat)
    (d : List (String × List (List (List α)))) (file_name : String) :
    List (String × List (List (List α))) :=
  match load_depth_data_frames fs file_name width height with
  | Except.ok frames => dictInsert d file_name frames
  | Except.error _ => d

/-- Embedding of `utilities.load_depth_data_sets`: fold the loop body over the file names,
starting from the empty dict. -/
def load_depth_data_sets (fs : String → Option (List α)) (file_names : List String)
    (width height : Nat) : List (String × List (List (List α))) :=
  file_names.foldl (loadStep fs width height) []

/-- One entry of `os.listdir`: a name, and whether `os.path.isfile` holds for
it. -/
structure DirEntry where
  name : String
  isFile : Bool
deriving DecidableEq, Repr

/-- The extension component of `os.path.splitext` on a bare file name (no
path separator): the suffix starting at the last dot, provided some earlier
character of the name is not a dot (so `".bin"` has no extension, while
`"a.bin"` and `"a.tar.bin"` have extension `".bin"`). -/
def splitext_ext (name : String) : String :=
  let cs := name.toList
  match ((List.range cs.length).filter (fun i => cs.getD i ' ' = '.')).getLast? with
  | none => ""
  | some d =>
    if (List.range d).any (fun j => cs.getD j ' ' ≠ '.') then
      String.mk (cs.drop d)
    else ""

/-- Does the loop body of `load_input_file_paths` keep this directory entry?
It is skipped unless `os.path.isfile` holds and its `os.path.splitext`
extension is `".bin"`. -/
def keepsEntry (e : DirEntry) : Bool :=
  e.isFile && splitext_ext e.name == ".bin"

/-- Embedding of `utilities.load_input_file_paths`: a missing directory is `exit(1)`;
entries that are not files or lack the `.bin` extension are skipped with a
printed diagnostic; an empty result is `exit(1)`.  `Except.error c` models
`exit(c)`. -/
def load_input_file_paths (dir : Option (List DirEntry)) : Except Nat (List String) :=
  match dir with
  | none => Except.error 1
  | some entries =>
    let file_names := (entries.filter keepsEntry).map DirEntry.name
    if file_names.length = 0 then Except.error 1 else Except.ok file_names

/-- Embedding of `script.py`: discover the input paths, then load the data sets from them.
If `load_input_file_paths` exits, no decode is attempted and the process ends
with that status. -/
def script_run (dir : Option (List DirEntry)) (fs : String → Option (List α))
    (width height : Nat) : Except Nat (List (String × List (List (List α)))) :=
  match load_input_file_paths dir with
  | Except.error c => Except.error c
  | Except.ok paths => Except.ok (load_depth_data_sets fs paths width height)

/-- Whether decoding succeeds for this source; the batch loader keeps exactly
the sources for which this holds. -/
def decodeOk (fs : String → Option (List α)) (w h : Nat) (f : String) : Bool :=
  match load_depth_data_frames fs f w h with
  | Except.ok _ => true
  | Except.error _ => false

/-! ## Concrete test fixtures -/

/-- The file system for the spec's worked example: one file `"d.bin"` holding
the twelve values `0..11`. -/
def fsC1 : String → Option (List Int) :=
  fun s => if s = "d.bin" then some [0, 1, 2, 3, 4, 5, 6, 7, 8, 9, 10, 11] else none

/-- A file system with one readable file of five values (not a multiple of
`4 * 3`). -/
def fsC2 : String → Option (List Int) :=
  fun s => if s = "bad.bin" then some [0, 1, 2, 3, 4] else none

/-- A file system with one readable twelve-value file; every other name is
unopenable. -/
def fsC3 : String → Option (List Int) :=
  fun s => if s = "a.bin" then some [0, 1, 2, 3, 4, 5, 6, 7, 8, 9, 10, 11] else none

/-- A file system with one readable zero-byte file. -/
def fsC4 : String → Option (List Int) :=
  fun s => if s = "zero.bin" then some [] else none

/-- Three sources: `a.bin` and `c.bin` hold twelve values each, `b.bin`
holds five (not a multiple of `4 * 3`). -/
def fsC5 : String → Option (List Int) :=
  fun s =>
    if s = "a.bin" then some [0, 1, 2, 3, 4, 5, 6, 7, 8, 9, 10, 11]
    else if s = "b.bin" then some [0, 1, 2, 3, 4]
    else if s = "c.bin" then some [12, 13, 14, 15, 16, 17, 18, 19, 20, 21, 22, 23]
    else none

/-- A decodable file plus a size-mismatched file. -/
def fsC8 : String → Option (List Int) :=
  fun s =>
    if s = "a.bin" then some [0, 1, 2, 3, 4, 5, 6, 7, 8, 9, 10, 11]
    else if s = "bad.bin" then some [0, 1, 2, 3, 4]
    else none

/-- Like `fsC3` plus a readable zero-byte file `empty.bin`. -/
def fsC10 : String → Option (List Int) :=
  fun s =>
    if s = "empty.bin" then some []
    else if s = "a.bin" then some [0, 1, 2, 3, 4, 5, 6, 7, 8, 9, 10, 11]
    else none

/-- Like `fsC10` but `empty.bin` is missing entirely. -/
def fsC10' : String → Option (List Int) :=
  fun s =>
    if s = "empty.bin" then none
    else if s = "a.bin" then some [0, 1, 2, 3, 4, 5, 6, 7, 8, 9, 10, 11]
    else none

/-- A directory with no regular `.bin` file: a text file and a subdirectory. -/
def dirC7 : Option (List DirEntry) :=
  some [⟨"notes.txt", true⟩, ⟨"subdir", false⟩]

/-- A directory with a single `.bin` file. -/
def dirC7ok : Option (List DirEntry) :=
  some [⟨"a.bin", true⟩]

/-! ## Basic facts about `chunkList` -/

/-- Lemma: `getD` commutes with `map` at an in-range index. -/
theorem getD_map_lt (f : α → β) (l : List α) (i : Nat) (hi : i < l.length)
    (d : β) (d' : α) : (l.map f).getD i d = f (l.getD i d') := by
  rw [List.getD_eq_getElem?_getD, List.getD_eq_getElem?_getD, List.getElem?_map,
    List.getElem?_eq_getElem hi]
  simp

theorem length_chunkList (k : Nat) (xs : List α) :
    (chunkList k xs).length = xs.length / k := by
  rw [chunkList, List.length_map, List.length_range]

/-- Index formula for `chunkList` (with `[]` as out-of-range default):
chunk `i` consists of the `k` elements starting at offset `i * k`. -/
theorem chunkList_getD (k : Nat) (xs : List α) (i : Nat)
    (hi : i < xs.length / k) :
    (chunkList k xs).getD i [] = (xs.drop (i * k)).take k := by
  rw [chunkList,
    getD_map_lt (fun i => (xs.drop (i * k)).take k) (List.range (xs.length / k))
      i (by simpa using hi) [] 0]
  congr 1
  rw [List.getD_eq_getElem?_getD, List.getElem?_range hi]
  rfl

theorem flatten_chunkList_aux (k : Nat) :
    ∀ (q : Nat) (xs : List α), xs.length = k * q →
      ((List.range q).map (fun i => (xs.drop (i * k)).take k)).flatten = xs := by
  intro q
  induction q with
  | zero =>
    intro xs hlen
    rw [Nat.mul_zero] at hlen
    rw [List.length_eq_zero.mp hlen]
    simp
  | succ q ih =>
    intro xs hlen
    rw [List.range_succ_eq_map, List.map_cons, List.map_map, List.flatten_cons]
    have hstep : ((List.range q).map ((fun i => (xs.drop (i * k)).take k) ∘ Nat.succ))
        = (List.range q).map (fun i => (((xs.drop k).drop (i * k))).take k) := by
      apply List.map_congr_left
      intro i _
      simp only [Function.comp_apply]
      rw [List.drop_drop]
      congr 2
      simp only [Nat.succ_eq_add_one]
      ring
    have hq : (xs.drop k).length = k * q := by
      rw [List.length_drop, hlen, Nat.mul_succ]
      omega
    rw [hstep, ih (xs.drop k) hq]
    simp [List.take_append_drop]

/-- Chunking then flattening recovers the original list (when `k` divides
the length). -/
theorem flatten_chunkList (k : Nat) (hk : k ≠ 0) (xs : List α)
    (hdiv : xs.length % k = 0) : (chunkList k xs).flatten = xs := by
  obtain ⟨m, hm⟩ := Nat.dvd_of_mod_eq_zero hdiv
  rw [chunkList, hm, Nat.mul_div_cancel_left _ (Nat.pos_of_ne_zero hk)]
  exact flatten_chunkList_aux k m xs hm

/-- When `k` divides the length and `i` is in range, the slice of `xs`
starting at `i * k` has exactly `k` elements. -/
theorem length_slice (k : Nat) (hk : k ≠ 0) (xs : List α) (i : Nat)
    (hdiv : xs.length % k = 0) (hi : i < xs.length / k) :
    ((xs.drop (i * k)).take k).length = k := by
  rw [List.length_take, List.length_drop]
  obtain ⟨m, hm⟩ := Nat.dvd_of_mod_eq_zero hdiv
  have hkpos : 0 < k := Nat.pos_of_ne_zero hk
  rw [hm, Nat.mul_div_cancel_left _ hkpos] at hi
  have hineq : i * k + k ≤ k * m := by
    have h2 : (i + 1) * k ≤ m * k := Nat.mul_le_mul_right k hi
    calc i * k + k = (i + 1) * k := by ring
      _ ≤ m * k := h2
      _ = k * m := Nat.mul_comm m k
  rw [hm]
  exact min_eq_left (by omega)

/-- Taking a window inside a prefix equals taking it from the full list. -/
theorem take_drop_take (X : List α) (M d w : Nat) (hdw : d + w ≤ M) :
    ((X.take M).drop d).take w = (X.drop d).take w := by
  rw [List.drop_take, List.take_take]
  have : w ⊓ (M - d) = w := min_eq_left (by omega)
  rw [this]

/-! ## Facts about the dict model -/

theorem lookup_dictInsert_self (d : List (String × β)) (k : String) (v : β) :
    (dictInsert d k v).lookup k = some v := by
  rw [dictInsert]
  split
  case isTrue hany =>
    induction d with
    | nil => simp at hany
    | cons a t ih =>
      obtain ⟨a1, a2⟩ := a
      by_cases hak : a1 = k
      · subst hak
        simp [List.lookup_cons]
      · have hbeq : (a1 == k) = false := beq_eq_false_iff_ne.mpr hak
        have hkbeq : (k == a1) = false := beq_eq_false_iff_ne.mpr (Ne.symm hak)
        simp only [List.any_cons, hbeq, Bool.false_or] at hany
        simp only [List.map_cons, hbeq, if_neg, Bool.false_eq_true,
          not_false_iff]
        rw [List.lookup_cons]
        simp only [hkbeq]
        exact ih hany
  case isFalse hany =>
    induction d with
    | nil => simp [List.lookup_cons]
    | cons a t ih =>
      obtain ⟨a1, a2⟩ := a
      simp only [List.any_cons, Bool.or_eq_true, not_or] at hany
      have hbeq : (a1 == k) ≠ true := hany.1
      have hkbeq : (k == a1) = false := by
        rw [Bool.eq_false_iff]
        intro hcon
        exact hbeq (by rw [beq_iff_eq] at hcon ⊢; exact hcon.symm)
      rw [List.cons_append, List.lookup_cons]
      simp only [hkbeq]
      exact ih (by simpa using hany.2)

theorem lookup_map_update_ne (t : List (String × β)) (k f : String) (v : β)
    (hfk : (f == k) = false) :
    (t.map (fun p => if p.1 == k then (k, v) else p)).lookup f = t.lookup f := by
  induction t with
  | nil => rfl
  | cons a t ih =>
    obtain ⟨a1, a2⟩ := a
    by_cases hak : a1 = k
    · subst hak
      simp only [List.map_cons, beq_self_eq_true, if_pos]
      rw [List.lookup_cons, List.lookup_cons]
      simp only [hfk]
      exact ih
    · have hbeq : (a1 == k) = false := beq_eq_false_iff_ne.mpr hak
      simp only [List.map_cons, hbeq, Bool.false_eq_true, if_neg,
        not_false_iff]
      rw [List.lookup_cons, List.lookup_cons]
      cases hfa : f == a1
      · exact ih
      · rfl

theorem lookup_append_single_ne (t : List (String × β)) (k f : String) (v : β)
    (hfk : (f == k) = false) :
    (t ++ [(k, v)]).lookup f = t.lookup f := by
  induction t with
  | nil =>
    simp only [List.nil_append]
    rw [List.lookup_cons]
    simp [hfk]
  | cons a t ih =>
    obtain ⟨a1, a2⟩ := a
    rw [List.cons_append, List.lookup_cons, List.lookup_cons]
    cases hfa : f == a1
    · exact ih
    · rfl

theorem lookup_dictInsert_ne (d : List (String × β)) (k f : String) (v : β)
    (hne : f ≠ k) : (dictInsert d k v).lookup f = d.lookup f := by
  have hfk : (f == k) = false := beq_eq_false_iff_ne.mpr hne
  rw [dictInsert]
  split
  · exact lookup_map_update_ne d k f v hfk
  · exact lookup_append_single_ne d k f v hfk

/-! ## Facts about the batch-loader fold -/

theorem lookup_foldl_not_mem (fs : String → Option (List α)) (w h : Nat)
    (l : List String) (f : String) (hf : f ∉ l)
    (d : List (String × List (List (List α)))) :
    (l.foldl (loadStep fs w h) d).lookup f = d.lookup f := by
  induction l generalizing d with
  | nil => rfl
  | cons g t ih =>
    have hfg : f ≠ g := by
      intro hsub
      exact hf (hsub ▸ List.mem_cons_self g t)
    have hft : f ∉ t := fun hm => hf (List.mem_cons_of_mem g hm)
    rw [List.foldl_cons, ih hft]
    cases hdec : load_depth_data_frames fs g w h with
    | ok frames =>
      simp only [loadStep, hdec]
      exact lookup_dictInsert_ne d g f frames hfg
    | error e =>
      simp only [loadStep, hdec]

theorem lookup_foldl_mem_ok (fs : String → Option (List α)) (w h : Nat)
    (l : List String) (f : String) (v : List (List (List α))) (hmem : f ∈ l)
    (hok : load_depth_data_frames fs f w h = Except.ok v)
    (d : List (String × List (List (List α)))) :
    (l.foldl (loadStep fs w h) d).lookup f = some v := by
  induction l generalizing d with
  | nil => cases hmem
  | cons g t ih =>
    rw [List.foldl_cons]
    by_cases hft : f ∈ t
    · exact ih hft _
    · have hfg : f = g := by
        rcases List.mem_cons.mp hmem with h1 | h2
        · exact h1
        · exact absurd h2 hft
      subst hfg
      rw [lookup_foldl_not_mem fs w h t f hft]
      simp only [loadStep, hok]
      exact lookup_dictInsert_self d f v

theorem lookup_foldl_error (fs : String → Option (List α)) (w h : Nat)
    (l : List String) (f : String) (e : DepthError)
    (herr : load_depth_data_frames fs f w h = Except.error e)
    (d : List (String × List (List (List α)))) (hd : d.lookup f = none) :
    (l.foldl (loadStep fs w h) d).lookup f = none := by
  induction l generalizing d with
  | nil => exact hd
  | cons g t ih =>
    rw [List.foldl_cons]
    apply ih
    by_cases hfg : f = g
    · subst hfg
      simp only [loadStep, herr]
      exact hd
    · cases hdec : load_depth_data_frames fs g w h with
      | ok frames =>
        simp only [loadStep, hdec]
        rw [lookup_dictInsert_ne d g f frames hfg]
        exact hd
      | error e2 =>
        simp only [loadStep, hdec]
        exact hd

/-! ## Unfolding the decoder -/

theorem load_depth_data_frames_none (fs : String → Option (List α)) (file : String)
    (w h : Nat) (hfile : fs file = none) :
    load_depth_data_frames fs file w h = Except.ok [] := by
  simp [load_depth_data_frames, hfile]

theorem load_depth_data_frames_ok (fs : String → Option (List α)) (file : String)
    (data : List α) (w h : Nat) (hfile : fs file = some data)
    (hdiv : data.length % (w * h) = 0) :
    load_depth_data_frames fs file w h = Except.ok (reshape h w data) := by
  simp [load_depth_data_frames, hfile, hdiv]

theorem load_depth_data_frames_err (fs : String → Option (List α)) (file : String)
    (data : List α) (w h : Nat) (hfile : fs file = some data)
    (hdiv : data.length % (w * h) ≠ 0) :
    load_depth_data_frames fs file w h =
      Except.error (DepthError.frameSizeMismatch w h) := by
  simp [load_depth_data_frames, hfile, hdiv]

/-! ## Facts about `reshape` -/

theorem length_reshape (w h : Nat) (data : List α) :
    (reshape h w data).length = data.length / (w * h) := by
  rw [reshape, List.length_map, length_chunkList]

theorem reshape_getD (w h : Nat) (data : List α) (i : Nat)
    (hi : i < data.length / (w * h)) :
    (reshape h w data).getD i [] =
      chunkList w ((data.drop (i * (w * h))).take (w * h)) := by
  rw [reshape,
    getD_map_lt (chunkList w) _ i (by rw [length_chunkList]; exact hi) [] [],
    chunkList_getD (w * h) data i hi]

theorem reshape_nil (h w : Nat) : reshape h w ([] : List α) = [] := by
  simp [reshape, chunkList, Nat.zero_div]

/-- The decoded result depends only on the byte buffer and the shape. -/
theorem load_depth_data_frames_congr (fs₁ fs₂ : String → Option (List α))
    (f₁ f₂ : String) (w h : Nat) (hbytes : fs₁ f₁ = fs₂ f₂) :
    load_depth_data_frames fs₁ f₁ w h = load_depth_data_frames fs₂ f₂ w h := by
  simp only [load_depth_data_frames]
  rw [hbytes]

/-- Decoding a readable zero-value file succeeds with the empty sequence. -/
theorem load_depth_data_frames_empty (fs : String → Option (List α))
    (file : String) (w h : Nat) (hfile : fs file = some []) :
    load_depth_data_frames fs file w h = Except.ok [] := by
  rw [load_depth_data_frames_ok fs file [] w h hfile (by simp), reshape_nil]

/-- Inversion: an empty decoded sequence comes only from a missing file or a
zero-value file (for positive dimensions). -/
theorem decode_ok_empty_inv (fs : String → Option (List α)) (file : String)
    (w h : Nat) (hw : 0 < w) (hh : 0 < h)
    (hok : load_depth_data_frames fs file w h = Except.ok []) :
    fs file = none ∨ fs file = some [] := by
  cases hfs : fs file with
  | none => exact Or.inl rfl
  | some data =>
    right
    by_cases hdiv : data.length % (w * h) = 0
    · rw [load_depth_data_frames_ok fs file data w h hfs hdiv] at hok
      have hresh : reshape h w data = [] := by
        injection hok
      have hlen : data.length / (w * h) = 0 := by
        rw [← length_reshape w h data, hresh]
        rfl
      have hwh : 0 < w * h := Nat.mul_pos hw hh
      have hlt : data.length < w * h := (Nat.div_eq_zero_iff hwh).mp hlen
      have hzero : data.length = 0 :=
        Nat.eq_zero_of_dvd_of_lt (Nat.dvd_of_mod_eq_zero hdiv) hlt
      rw [List.length_eq_zero.mp hzero]
    · rw [load_depth_data_frames_err fs file data w h hfs hdiv] at hok
      cases hok

/-- Any value found in the folded mapping was put there by a successful
decode of its own key. -/
theorem lookup_foldl_cases (fs : String → Option (List α)) (w h : Nat)
    (l : List String) (f : String) (v : List (List (List α)))
    (d : List (String × List (List (List α))))
    (hlk : (l.foldl (loadStep fs w h) d).lookup f = some v) :
    d.lookup f = some v ∨
      (f ∈ l ∧ load_depth_data_frames fs f w h = Except.ok v) := by
  induction l generalizing d with
  | nil => exact Or.inl hlk
  | cons g t ih =>
    rw [List.foldl_cons] at hlk
    rcases ih (loadStep fs w h d g) hlk with hbase | ⟨hmem, hok⟩
    · cases hdec : load_depth_data_frames fs g w h with
      | ok frames =>
        simp only [loadStep, hdec] at hbase
        by_cases hfg : f = g
        · subst hfg
          rw [lookup_dictInsert_self d f frames] at hbase
          injection hbase with hbase
          exact Or.inr ⟨List.mem_cons_self f t, hbase ▸ hdec⟩
        · rw [lookup_dictInsert_ne d g f frames hfg] at hbase
          exact Or.inl hbase
      | error e =>
        simp only [loadStep, hdec] at hbase
        exact Or.inl hbase
    · exact Or.inr ⟨List.mem_cons_of_mem g hmem, hok⟩

/-- The keys of the folded mapping extend the accumulator's keys with the
successfully decoded inputs, in input order (for duplicate-free inputs that
are fresh relative to the accumulator). -/
theorem keys_foldl (fs : String → Option (List α)) (w h : Nat)
    (l : List String) (hnd : l.Nodup)
    (d : List (String × List (List (List α))))
    (hdisj : ∀ f ∈ l, (d.any (fun p => p.1 == f)) = false) :
    (l.foldl (loadStep fs w h) d).map Prod.fst =
      d.map Prod.fst ++ l.filter (decodeOk fs w h) := by
  induction l generalizing d with
  | nil => simp
  | cons g t ih =>
    rw [List.foldl_cons]
    have hgt : g ∉ t := (List.nodup_cons.mp hnd).1
    have hndt : t.Nodup := (List.nodup_cons.mp hnd).2
    cases hdec : load_depth_data_frames fs g w h with
    | ok frames =>
      have hdg : (d.any (fun p => p.1 == g)) = false :=
        hdisj g (List.mem_cons_self g t)
      have hstep : loadStep fs w h d g = d ++ [(g, frames)] := by
        simp only [loadStep, hdec, dictInsert, hdg]
        simp
      have hfresh : ∀ f ∈ t, ((d ++ [(g, frames)]).any (fun p => p.1 == f)) = false := by
        intro f hf
        rw [List.any_append]
        have h1 : (d.any (fun p => p.1 == f)) = false :=
          hdisj f (List.mem_cons_of_mem g hf)
        have h2 : (g == f) = false :=
          beq_eq_false_iff_ne.mpr (fun hgf => hgt (hgf ▸ hf))
        simp [h1, h2]
      rw [hstep, ih hndt (d ++ [(g, frames)]) hfresh, List.map_append,
        List.filter_cons]
      have hokb : decodeOk fs w h g = true := by
        simp [decodeOk, hdec]
      rw [hokb]
      simp [List.append_assoc]
    | error e =>
      have hstep : loadStep fs w h d g = d := by
        simp only [loadStep, hdec]
      rw [hstep, ih hndt d (fun f hf => hdisj f (List.mem_cons_of_mem g hf)),
        List.filter_cons]
      have hokb : decodeOk fs w h g = false := by
        simp [decodeOk, hdec]
      rw [hokb]
      simp

/-! ## Claim theorems -/

/-- C1: For every byte buffer holding `n` float64 values and every
positive `w` and `h` with `n % (w*h) = 0`, the decoder succeeds and returns
exactly `n / (w*h)` frames, each of `h` rows of `w` columns, where frame `i`
row `r` consists of the `w` consecutive source values starting at offset
`i*(w*h) + r*w` (row-major layout, fastest-varying index the column axis). -/
theorem C1_decode_ok_shape (fs : String → Option (List Int)) (file : String)
    (data : List Int) (w h : Nat) (hw : 0 < w) (hh : 0 < h)
    (hfile : fs file = some data) (hdiv : data.length % (w * h) = 0) :
    ∃ frames, load_depth_data_frames fs file w h = Except.ok frames ∧
      frames.length = data.length / (w * h) ∧
      ∀ i, i < frames.length →
        (frames.getD i []).length = h ∧
        ∀ r, r < h → (frames.getD i []).getD r [] =
          (data.drop (i * (w * h) + r * w)).take w := by
  have hwne : w ≠ 0 := Nat.pos_iff_ne_zero.mp hw
  have hwh : w * h ≠ 0 := Nat.mul_ne_zero hwne (Nat.pos_iff_ne_zero.mp hh)
  refine ⟨reshape h w data, load_depth_data_frames_ok fs file data w h hfile hdiv,
    length_reshape w h data, ?_⟩
  intro i hi
  rw [length_reshape w h data] at hi
  rw [reshape_getD w h data i hi]
  have hchunklen : ((data.drop (i * (w * h))).take (w * h)).length = w * h :=
    length_slice (w * h) hwh data i hdiv hi
  constructor
  · rw [length_chunkList, hchunklen, Nat.mul_div_cancel_left h hw]
  · intro r hr
    have hrw : r < ((data.drop (i * (w * h))).take (w * h)).length / w := by
      rw [hchunklen, Nat.mul_div_cancel_left h hw]
      exact hr
    have hineq : r * w + w ≤ w * h := by
      have h2 : (r + 1) * w ≤ h * w := Nat.mul_le_mul_right w hr
      calc r * w + w = (r + 1) * w := by ring
        _ ≤ h * w := h2
        _ = w * h := Nat.mul_comm h w
    rw [chunkList_getD w _ r hrw,
      take_drop_take (data.drop (i * (w * h))) (w * h) (r * w) w hineq,
      List.drop_drop]

/-- Witness for C1 at the spec's example (`w = 4`, `h = 3`, buffer `0..11`):
the hypotheses hold and the decoder yields one frame with rows `[0,1,2,3]`,
`[4,5,6,7]`, `[8,9,10,11]`. -/
theorem C1_decode_ok_shape_witness :
    (load_depth_data_frames fsC1 "d.bin" 4 3 =
        Except.ok [[[0, 1, 2, 3], [4, 5, 6, 7], [8, 9, 10, 11]]]) ∧
    ∃ frames, load_depth_data_frames fsC1 "d.bin" 4 3 = Except.ok frames ∧
      frames.length =
        ([0, 1, 2, 3, 4, 5, 6, 7, 8, 9, 10, 11] : List Int).length / (4 * 3) ∧
      ∀ i, i < frames.length →
        (frames.getD i []).length = 3 ∧
        ∀ r, r < 3 → (frames.getD i []).getD r [] =
          (([0, 1, 2, 3, 4, 5, 6, 7, 8, 9, 10, 11] : List Int).drop
            (i * (4 * 3) + r * 4)).take 4 :=
  ⟨rfl, C1_decode_ok_shape fsC1 "d.bin" [0, 1, 2, 3, 4, 5, 6, 7, 8, 9, 10, 11] 4 3
    (by decide) (by decide) rfl (by decide)⟩

/-- C2: For every readable byte buffer whose float64 value count is not a
multiple of `w * h` (positive `w`, `h`), the decoder fails with a
`FrameSizeMismatch` error carrying the expected frame dimensions, and returns
no (partial or truncated) frame sequence at all. -/
theorem C2_decode_size_mismatch (fs : String → Option (List Int)) (file : String)
    (data : List Int) (w h : Nat) (hw : 0 < w) (hh : 0 < h)
    (hfile : fs file = some data) (hdiv : data.length % (w * h) ≠ 0) :
    load_depth_data_frames fs file w h =
      Except.error (DepthError.frameSizeMismatch w h) ∧
    ∀ frames, load_depth_data_frames fs file w h ≠ Except.ok frames := by
  have herr := load_depth_data_frames_err fs file data w h hfile hdiv
  refine ⟨herr, fun frames hcon => ?_⟩
  rw [herr] at hcon
  cases hcon

/-- Witness for C2: a five-value file with `w = 4`, `h = 3`. -/
theorem C2_decode_size_mismatch_witness :
    (0 < 4 ∧ 0 < 3 ∧ fsC2 "bad.bin" = some [0, 1, 2, 3, 4] ∧
      ([0, 1, 2, 3, 4] : List Int).length % (4 * 3) ≠ 0) ∧
    load_depth_data_frames fsC2 "bad.bin" 4 3 =
      Except.error (DepthError.frameSizeMismatch 4 3) ∧
    ∀ frames, load_depth_data_frames fsC2 "bad.bin" 4 3 ≠ Except.ok frames :=
  ⟨⟨by decide, by decide, rfl, by decide⟩,
    C2_decode_size_mismatch fsC2 "bad.bin" [0, 1, 2, 3, 4] 4 3
      (by decide) (by decide) rfl (by decide)⟩

/-- C3: A source whose file cannot be located/opened decodes without
failing to the empty frame sequence, and the batch loader includes it in the
mapping with that empty sequence while the remaining sources are still
processed (each other decodable source keeps its decoded frames). -/
theorem C3_unopenable_soft (fs : String → Option (List Int)) (file : String)
    (file_names : List String) (w h : Nat) (hfile : fs file = none)
    (hmem : file ∈ file_names) :
    load_depth_data_frames fs file w h = Except.ok [] ∧
    (load_depth_data_sets fs file_names w h).lookup file = some [] ∧
    ∀ g v, g ∈ file_names → load_depth_data_frames fs g w h = Except.ok v →
      (load_depth_data_sets fs file_names w h).lookup g = some v := by
  have hdec := load_depth_data_frames_none fs file w h hfile
  exact ⟨hdec, lookup_foldl_mem_ok fs w h file_names file [] hmem hdec [],
    fun g v hg hok => lookup_foldl_mem_ok fs w h file_names g v hg hok []⟩

/-- Witness for C3: `missing.bin` does not exist, `a.bin` decodes normally;
the mapping holds both, `missing.bin` with the empty sequence. -/
theorem C3_unopenable_soft_witness :
    (fsC3 "missing.bin" = none ∧ "missing.bin" ∈ ["missing.bin", "a.bin"]) ∧
    load_depth_data_frames fsC3 "missing.bin" 4 3 = Except.ok [] ∧
    (load_depth_data_sets fsC3 ["missing.bin", "a.bin"] 4 3).lookup "missing.bin" =
      some [] ∧
    (load_depth_data_sets fsC3 ["missing.bin", "a.bin"] 4 3).lookup "a.bin" =
      some [[[0, 1, 2, 3], [4, 5, 6, 7], [8, 9, 10, 11]]] := by
  have hmain := C3_unopenable_soft fsC3 "missing.bin" ["missing.bin", "a.bin"] 4 3
    rfl (by decide)
  exact ⟨⟨rfl, by decide⟩, hmain.1, hmain.2.1,
    hmain.2.2 "a.bin" [[[0, 1, 2, 3], [4, 5, 6, 7], [8, 9, 10, 11]]]
      (by decide) rfl⟩

/-- C6: Decoding is deterministic: the result depends only on the byte
buffer and the shape, so any two invocations over the same bytes with the
same width and height return identical frame sequences. -/
theorem C6_decode_deterministic (fs₁ fs₂ : String → Option (List Int))
    (f₁ f₂ : String) (w h : Nat) (hbytes : fs₁ f₁ = fs₂ f₂) :
    load_depth_data_frames fs₁ f₁ w h = load_depth_data_frames fs₂ f₂ w h :=
  load_depth_data_frames_congr fs₁ fs₂ f₁ f₂ w h hbytes

/-- Witness for C6 at the `0..11` example. -/
theorem C6_decode_deterministic_witness :
    load_depth_data_frames fsC1 "d.bin" 4 3 = load_depth_data_frames fsC1 "d.bin" 4 3 :=
  C6_decode_deterministic fsC1 fsC1 "d.bin" "d.bin" 4 3 rfl

/-- C9: Round trip: for a buffer whose value count is a multiple of
`w * h` (positive `w`, `h`), concatenating the rows of every decoded frame in
order (frame, then row, then column) yields exactly the original value
sequence — nothing is altered, dropped, duplicated or reordered. -/
theorem C9_roundtrip (fs : String → Option (List Int)) (file : String)
    (data : List Int) (w h : Nat) (hw : 0 < w) (hh : 0 < h)
    (hfile : fs file = some data) (hdiv : data.length % (w * h) = 0) :
    ∃ frames, load_depth_data_frames fs file w h = Except.ok frames ∧
      (frames.map List.flatten).flatten = data := by
  have hwne : w ≠ 0 := Nat.pos_iff_ne_zero.mp hw
  have hwh : w * h ≠ 0 := Nat.mul_ne_zero hwne (Nat.pos_iff_ne_zero.mp hh)
  refine ⟨reshape h w data, load_depth_data_frames_ok fs file data w h hfile hdiv, ?_⟩
  rw [reshape, List.map_map]
  have hmap : (chunkList (w * h) data).map (List.flatten ∘ chunkList w) =
      (chunkList (w * h) data).map id := by
    apply List.map_congr_left
    intro c hc
    simp only [chunkList, List.mem_map, List.mem_range] at hc
    obtain ⟨i, hi, rfl⟩ := hc
    simp only [Function.comp_apply, id]
    apply flatten_chunkList w hwne
    rw [length_slice (w * h) hwh data i hdiv hi]
    exact Nat.mul_mod_right w h
  rw [hmap, List.map_id]
  exact flatten_chunkList (w * h) hwh data hdiv

/-- Witness for C9 at the `0..11` example. -/
theorem C9_roundtrip_witness :
    ∃ frames, load_depth_data_frames fsC1 "d.bin" 4 3 = Except.ok frames ∧
      (frames.map List.flatten).flatten =
        ([0, 1, 2, 3, 4, 5, 6, 7, 8, 9, 10, 11] : List Int) :=
  C9_roundtrip fsC1 "d.bin" [0, 1, 2, 3, 4, 5, 6, 7, 8, 9, 10, 11] 4 3
    (by decide) (by decide) rfl (by decide)

/-- C10: A readable zero-byte file decodes successfully to the empty
frame sequence (0 is divisible by `w * h`), the batch loader includes it with
that empty sequence, and the resulting dataset mapping is identical to the
one obtained when that file is missing entirely — the two cases are
indistinguishable in the result mapping. -/
theorem C10_empty_file (fs fs' : String → Option (List Int)) (file : String)
    (file_names : List String) (w h : Nat) (hw : 0 < w) (hh : 0 < h)
    (hfile : fs file = some []) (hfile' : fs' file = none)
    (hagree : ∀ g, g ≠ file → fs g = fs' g) (hmem : file ∈ file_names) :
    load_depth_data_frames fs file w h = Except.ok [] ∧
    (load_depth_data_sets fs file_names w h).lookup file = some [] ∧
    load_depth_data_sets fs file_names w h =
      load_depth_data_sets fs' file_names w h := by
  have hdec : load_depth_data_frames fs file w h = Except.ok [] :=
    load_depth_data_frames_empty fs file w h hfile
  refine ⟨hdec, lookup_foldl_mem_ok fs w h file_names file [] hmem hdec [], ?_⟩
  rw [load_depth_data_sets, load_depth_data_sets]
  apply List.foldl_ext
  intro d g _
  have hsame : load_depth_data_frames fs g w h = load_depth_data_frames fs' g w h := by
    by_cases hgf : g = file
    · subst hgf
      rw [load_depth_data_frames_none fs' g w h hfile', hdec]
    · exact load_depth_data_frames_congr fs fs' g g w h (hagree g hgf)
  simp only [loadStep, hsame]

/-- Witness for C10: `empty.bin` readable with zero values versus missing;
the two batch results coincide. -/
theorem C10_empty_file_witness :
    (fsC10 "empty.bin" = some [] ∧ fsC10' "empty.bin" = none ∧
      "empty.bin" ∈ ["empty.bin", "a.bin"]) ∧
    load_depth_data_frames fsC10 "empty.bin" 4 3 = Except.ok [] ∧
    (load_depth_data_sets fsC10 ["empty.bin", "a.bin"] 4 3).lookup "empty.bin" =
      some [] ∧
    load_depth_data_sets fsC10 ["empty.bin", "a.bin"] 4 3 =
      load_depth_data_sets fsC10' ["empty.bin", "a.bin"] 4 3 :=
  ⟨⟨rfl, rfl, by decide⟩,
    C10_empty_file fsC10 fsC10' "empty.bin" ["empty.bin", "a.bin"] 4 3
      (by decide) (by decide) rfl rfl
      (fun g hg => by simp [fsC10, fsC10', hg]) (by decide)⟩

/-- C4 (amended): The dataset mapping never contains an entry for a
source whose decode raised `FrameSizeMismatch` (it is excluded entirely, not
inserted even as an empty sequence); a source appears with an empty frame
sequence exactly when its file could not be opened **or** its readable file
holds zero values. -/
theorem C4_no_error_entries (fs : String → Option (List Int))
    (file_names : List String) (w h : Nat) (hw : 0 < w) (hh : 0 < h) :
    (∀ f e, load_depth_data_frames fs f w h = Except.error e →
      (load_depth_data_sets fs file_names w h).lookup f = none) ∧
    (∀ f, (load_depth_data_sets fs file_names w h).lookup f = some [] →
      fs f = none ∨ fs f = some []) := by
  constructor
  · intro f e herr
    exact lookup_foldl_error fs w h file_names f e herr [] rfl
  · intro f hlk
    rcases lookup_foldl_cases fs w h file_names f [] [] hlk with hbase | ⟨_, hok⟩
    · cases hbase
    · exact decode_ok_empty_inv fs f w h hw hh hok

/-- C4 counterexample: The claim's clause "only sources that could not be
opened may appear with an empty Frame Sequence" is false: `zero.bin` is
readable (zero bytes), yet appears in the mapping with the empty sequence. -/
theorem C4_counterexample :
    (load_depth_data_sets fsC4 ["zero.bin"] 4 3).lookup "zero.bin" = some [] ∧
    fsC4 "zero.bin" = some [] ∧ fsC4 "zero.bin" ≠ none :=
  ⟨rfl, rfl, by decide⟩

/-- Witness for C4 (amended): `bad.bin` (five values) is excluded from the
mapping, and the empty-sequence inversion applies to `zero.bin`. -/
theorem C4_no_error_entries_witness :
    (load_depth_data_sets fsC8 ["a.bin", "bad.bin"] 4 3).lookup "bad.bin" = none ∧
    (fsC4 "zero.bin" = none ∨ fsC4 "zero.bin" = some []) := by
  have h1 := (C4_no_error_entries fsC8 ["a.bin", "bad.bin"] 4 3
    (by decide) (by decide)).1 "bad.bin" (DepthError.frameSizeMismatch 4 3) rfl
  have h2 := (C4_no_error_entries fsC4 ["zero.bin"] 4 3
    (by decide) (by decide)).2 "zero.bin" rfl
  exact ⟨h1, h2⟩

/-- C5: Batch isolation: for three distinct sources `a`, `b`, `c`
processed in that order, where only `b`'s value count fails the `w * h`
divisibility check, the mapping holds `a`'s and `c`'s decoded frames and no
entry for `b` — `b`'s failure does not stop `c` from being processed. -/
theorem C5_batch_isolation (fs : String → Option (List Int)) (a b c : String)
    (dataA dataB dataC : List Int) (w h : Nat)
    (hab : a ≠ b) (hac : a ≠ c) (hbc : b ≠ c)
    (ha : fs a = some dataA) (hb : fs b = some dataB) (hc : fs c = some dataC)
    (hdivA : dataA.length % (w * h) = 0)
    (hdivB : dataB.length % (w * h) ≠ 0)
    (hdivC : dataC.length % (w * h) = 0) :
    (load_depth_data_sets fs [a, b, c] w h).lookup a = some (reshape h w dataA) ∧
    (load_depth_data_sets fs [a, b, c] w h).lookup c = some (reshape h w dataC) ∧
    (load_depth_data_sets fs [a, b, c] w h).lookup b = none :=
  ⟨lookup_foldl_mem_ok fs w h [a, b, c] a (reshape h w dataA) (by simp)
      (load_depth_data_frames_ok fs a dataA w h ha hdivA) [],
    lookup_foldl_mem_ok fs w h [a, b, c] c (reshape h w dataC) (by simp)
      (load_depth_data_frames_ok fs c dataC w h hc hdivC) [],
    lookup_foldl_error fs w h [a, b, c] b (DepthError.frameSizeMismatch w h)
      (load_depth_data_frames_err fs b dataB w h hb hdivB) [] rfl⟩

/-- Witness for C5: `a.bin` and `c.bin` decode, `b.bin` (five values) is
dropped. -/
theorem C5_batch_isolation_witness :
    (load_depth_data_sets fsC5 ["a.bin", "b.bin", "c.bin"] 4 3).lookup "a.bin" =
      some (reshape 3 4 [0, 1, 2, 3, 4, 5, 6, 7, 8, 9, 10, 11]) ∧
    (load_depth_data_sets fsC5 ["a.bin", "b.bin", "c.bin"] 4 3).lookup "c.bin" =
      some (reshape 3 4 [12, 13, 14, 15, 16, 17, 18, 19, 20, 21, 22, 23]) ∧
    (load_depth_data_sets fsC5 ["a.bin", "b.bin", "c.bin"] 4 3).lookup "b.bin" =
      none :=
  C5_batch_isolation fsC5 "a.bin" "b.bin" "c.bin"
    [0, 1, 2, 3, 4, 5, 6, 7, 8, 9, 10, 11] [0, 1, 2, 3, 4]
    [12, 13, 14, 15, 16, 17, 18, 19, 20, 21, 22, 23] 4 3
    (by decide) (by decide) (by decide) rfl rfl rfl
    (by decide) (by decide) (by decide)

/-- C8 (amended): For every input list of pairwise-distinct source
identifiers (as directory discovery produces), the keys of the dataset
mapping are exactly the input identifiers whose decode succeeded, in the
input's relative order. -/
theorem C8_keys_order (fs : String → Option (List Int)) (file_names : List String)
    (w h : Nat) (hnd : file_names.Nodup) :
    (load_depth_data_sets fs file_names w h).map Prod.fst =
      file_names.filter (decodeOk fs w h) := by
  have hmain := keys_foldl fs w h file_names hnd [] (fun f _ => rfl)
  rw [load_depth_data_sets]
  rw [hmain]
  rfl

/-- C8 counterexample: The claim quantifies over every input list, but
for the duplicate input `["a.bin", "a.bin"]` (both occurrences decodable) the
Python dict keeps a single key, so the key sequence `["a.bin"]` is not the
input restricted to non-excluded sources, which is `["a.bin", "a.bin"]`. -/
theorem C8_counterexample :
    (load_depth_data_sets fsC8 ["a.bin", "a.bin"] 4 3).map Prod.fst = ["a.bin"] ∧
    List.filter (decodeOk fsC8 4 3) ["a.bin", "a.bin"] = ["a.bin", "a.bin"] ∧
    (["a.bin"] : List String) ≠ ["a.bin", "a.bin"] :=
  ⟨rfl, rfl, by decide⟩

/-- Witness for C8 (amended): the duplicate-free input `["a.bin", "bad.bin"]`
yields exactly the key `"a.bin"` (the sole decodable source). -/
theorem C8_keys_order_witness :
    (["a.bin", "bad.bin"] : List String).Nodup ∧
    (load_depth_data_sets fsC8 ["a.bin", "bad.bin"] 4 3).map Prod.fst =
      List.filter (decodeOk fsC8 4 3) ["a.bin", "bad.bin"] :=
  ⟨by decide, C8_keys_order fsC8 ["a.bin", "bad.bin"] 4 3 (by decide)⟩

/-- C7: A missing input directory, or one containing zero regular `.bin`
files, terminates the run with exit status 1 before any decode is attempted
(the script produces no dataset mapping), and `load_input_file_paths` never
returns an empty list. -/
theorem C7_fatal_startup (dir : Option (List DirEntry)) :
    ((dir = none ∨ ∃ entries, dir = some entries ∧ entries.filter keepsEntry = []) →
      load_input_file_paths dir = Except.error 1 ∧
      ∀ (fs : String → Option (List Int)) (w h : Nat),
        script_run dir fs w h = Except.error 1) ∧
    ∀ paths, load_input_file_paths dir = Except.ok paths → paths ≠ [] := by
  constructor
  · rintro (rfl | ⟨entries, rfl, hempty⟩)
    · exact ⟨rfl, fun fs w h => rfl⟩
    · have h1 : load_input_file_paths (some entries) = Except.error 1 := by
        simp [load_input_file_paths, hempty]
      refine ⟨h1, fun fs w h => ?_⟩
      simp [script_run, h1]
  · intro paths hok
    cases dir with
    | none => exact absurd hok (by simp [load_input_file_paths])
    | some entries =>
      simp only [load_input_file_paths] at hok
      by_cases hlen : ((entries.filter keepsEntry).map DirEntry.name).length = 0
      · rw [if_pos hlen] at hok
        cases hok
      · rw [if_neg hlen] at hok
        injection hok with hok
        intro hcon
        apply hlen
        rw [hok, hcon]
        rfl

/-- Witness for C7: a directory holding only a text file and a subdirectory
is fatal (for the script too), and a directory with one `.bin` file returns a
non-empty path list. -/
theorem C7_fatal_startup_witness :
    load_input_file_paths dirC7 = Except.error 1 ∧
    script_run dirC7 fsC1 4 3 = Except.error 1 ∧
    (["a.bin"] : List String) ≠ [] :=
  ⟨((C7_fatal_startup dirC7).1 (Or.inr ⟨_, rfl, by decide⟩)).1,
    ((C7_fatal_startup dirC7).1 (Or.inr ⟨_, rfl, by decide⟩)).2 fsC1 4 3,
    (C7_fatal_startup dirC7ok).2 ["a.bin"] rfl⟩

end GenerateTestData
